import Mathlib

/-!
# Verification of the home-finance extraction / categorization pipeline

Shallow embedding of the core services of the repository
(`app/services/ocr_service.py`, `app/services/excel_service.py`,
`app/services/learning_service.py`, `app/services/merchant_normalization.py`)
and proofs about them.

Modelling conventions:
* Python numbers (`Decimal`, `float`, `int`) are modelled as `ℚ` (and `ℤ`/`ℕ`
  where the source uses integers); the float comparisons that occur in the
  source (`>= 0.7`, confidence comparisons) are modelled as exact rational
  comparisons, which agree with IEEE doubles for all count values that can
  occur in practice (denominators far below 2^50).
* Decoded JSON values are modelled by a `Json` inductive; the parsers of the
  source that run *after* `json` decoding are embedded as functions of this
  type, so every theorem quantifies over all decodable responses.
* Python exceptions that abort a call are modelled by `Except Unit`; a caught
  exception that merely skips an item is modelled by `Option`/`none`.
* Character classes (`\w`, `\s`, `\d`, `str.lower`) are modelled over the
  alphabets the program actually processes: ASCII and the Cyrillic block
  (U+0400–U+04FF), plus the no-break space U+00A0.
* Bounded scanning recursions use an explicit fuel argument equal to the
  length of the scanned list; every step consumes at least one character, so
  this fuel is always sufficient, and it keeps every definition
  kernel-reducible (no well-founded fixpoints).
-/

/-- Decoded JSON value, the output of Python's `json` decoding that the
response parsers consume. -/
inductive Json where
  | null
  | bool (b : Bool)
  | num (q : ℚ)
  | str (s : String)
  | arr (elems : List Json)
  | obj (fields : List (String × Json))

namespace Json

/-- Model of `d.get(k)` on a decoded JSON object: `none` when `j` is not an object or
the key is absent. -/
def get? (j : Json) (k : String) : Option Json :=
  match j with
  | obj fields => (fields.find? (fun p => p.1 = k)).map (·.2)
  | _ => none

/-- Model of `d.get(k, default)`. -/
def getD (j : Json) (k : String) (d : Json) : Json :=
  (j.get? k).getD d

/-- Is this decoded value Python's `None`? -/
def isNull : Json → Bool
  | null => true
  | _ => false

/-- Python truthiness of a decoded JSON value (`if not chart: ...`). -/
def truthy : Json → Bool
  | null => false
  | bool b => b
  | num q => q != 0
  | str s => s != ""
  | arr l => !l.isEmpty
  | obj l => !l.isEmpty

end Json

/-! ## Character classes and low-level string helpers -/

/-- Cyrillic block U+0400–U+04FF (covers а–я, А–Я, ё, Ё). -/
def isCyrillic (c : Char) : Bool :=
  0x400 ≤ c.toNat ∧ c.toNat ≤ 0x4FF

/-- Python `\w` over the alphabets in play: ASCII alphanumerics, underscore,
and Cyrillic letters. -/
def isWordChar (c : Char) : Bool :=
  c.isAlphanum || c = '_' || isCyrillic c

/-- Python `\s` (str patterns) over the characters in play: ASCII whitespace
and the no-break space U+00A0. -/
def isPySpace (c : Char) : Bool :=
  c = ' ' || c = '\t' || c = '\n' || c = '\r' ||
  c = '\x0b' || c = '\x0c' || c = ' '

/-- Python `\d` (the program only ever meets ASCII digits). -/
def isAsciiDigit (c : Char) : Bool := c.isDigit

/-- Model of `str.lower` restricted to ASCII and Cyrillic (the alphabets the program
processes). -/
def ruLower (c : Char) : Char :=
  if 'A' ≤ c ∧ c ≤ 'Z' then Char.ofNat (c.toNat + 32)
  else if 0x410 ≤ c.toNat ∧ c.toNat ≤ 0x42F then Char.ofNat (c.toNat + 0x20)
  else if c.toNat = 0x401 then Char.ofNat 0x451
  else c

/-- Model of `str.upper` restricted to ASCII and Cyrillic. -/
def ruUpper (c : Char) : Char :=
  if 'a' ≤ c ∧ c ≤ 'z' then Char.ofNat (c.toNat - 32)
  else if 0x430 ≤ c.toNat ∧ c.toNat ≤ 0x44F then Char.ofNat (c.toNat - 0x20)
  else if c.toNat = 0x451 then Char.ofNat 0x401
  else c

/-- Model of `str.strip()`: drop leading and trailing whitespace. -/
def pyStrip (l : List Char) : List Char :=
  ((l.dropWhile isPySpace).reverse.dropWhile isPySpace).reverse

/-- Digits of a decimal literal to a natural number. -/
def digitsToNat (l : List Char) : ℕ :=
  l.foldl (fun acc c => 10 * acc + (c.toNat - '0'.toNat)) 0

/-- Core decimal-literal parser shared by the models of Python's
`Decimal(text)`, `float(text)` and `int(text)` constructors on the literal
shapes the program produces: an optional ASCII sign followed by
`digits`, `digits.digits`, `digits.` or `.digits` (surrounding whitespace
stripped, as both constructors do).  Exotic forms (exponents, `Infinity`,
`NaN`, underscores) are outside the program's data and are not modelled. -/
def decLit? (l : List Char) : Option ℚ :=
  let l := pyStrip l
  let (sign, rest) : ℤ × List Char :=
    match l with
    | '+' :: r => (1, r)
    | '-' :: r => (-1, r)
    | r => (1, r)
  let intPart := rest.takeWhile isAsciiDigit
  let rest2 := rest.dropWhile isAsciiDigit
  match rest2 with
  | [] =>
    if intPart = [] then none
    else some (mkRat (sign * (digitsToNat intPart : ℤ)) 1)
  | '.' :: r2 =>
    let fracPart := r2.takeWhile isAsciiDigit
    let rest3 := r2.dropWhile isAsciiDigit
    if rest3 = [] ∧ (intPart ≠ [] ∨ fracPart ≠ []) then
      some (mkRat
        (sign * ((digitsToNat intPart * Nat.pow 10 fracPart.length + digitsToNat fracPart : ℕ) : ℤ))
        (Nat.pow 10 fracPart.length))
    else none
  | _ => none

/-- Model of `Decimal(s)` for a string. -/
def pyDecimalStr? (s : String) : Option ℚ := decLit? s.data

/-- Model of `float(s)` for a string (same literal shapes, see `decLit?`). -/
def pyFloatStr? (s : String) : Option ℚ := decLit? s.data

/-- Model of `float(value)` on a decoded JSON value: numbers pass through,
booleans are 1/0, numeric strings parse, everything else raises
(`TypeError`/`ValueError`), reported as `none`. -/
def pyFloat? : Json → Option ℚ
  | Json.num q => some q
  | Json.bool b => some (if b then 1 else 0)
  | Json.str s => pyFloatStr? s
  | _ => none

/-- Model of `int(value)` on a decoded JSON value: floats truncate toward
zero, booleans are 1/0, integer strings parse, everything else raises. -/
def pyInt? : Json → Option ℤ
  | Json.num q => some (if q ≥ 0 then q.floor else -((-q).floor))
  | Json.bool b => some (if b then 1 else 0)
  | Json.str s =>
    match decLit? s.data with
    | some q => if q.den = 1 then some q.num else none
    | none => none
  | _ => none

/-- Model of `Decimal(str(value))` on a decoded JSON value: numbers pass
through exactly (Python's `str` of a decoded JSON number is the shortest
round-tripping literal, whose value the decoded `ℚ` already denotes), numeric
strings parse, and every other value's `str()` makes `Decimal` raise
`InvalidOperation`, reported as `none`. -/
def pyDecimalOfStr? : Json → Option ℚ
  | Json.num q => some q
  | Json.str s => pyDecimalStr? s
  | _ => none

/-! ## Value parsers of `ocr_service.py` -/

/-- Model of `VALID_CATEGORIES` (ocr_service.py line 19): one combined set for both
expense and income categories. -/
def VALID_CATEGORIES : List String :=
  ["Food", "Transport", "Entertainment", "Shopping", "Bills", "Health", "Other",
   "Salary", "Transfer", "Cashback", "Investment", "OtherIncome"]

/-- Model of `_normalize_category` (ocr_service.py): member of the combined set, or
the `"Other"` sentinel.  Total. -/
def normalizeCategory (category : String) : String :=
  if VALID_CATEGORIES.contains category then category else "Other"

/-- Model of `_normalize_category(data.get("category", "Other"))` on a raw JSON field:
a non-string value is never a member of the set of strings, so it falls back
to `"Other"`. -/
def normalizeCategoryJson : Json → String
  | Json.str s => normalizeCategory s
  | _ => "Other"

/-- Model of `_clamp_confidence(value, default=0.5)`: coerce to float and clamp to
[0,1]; non-numeric input yields the default. -/
def clampConfidence (j : Json) : ℚ :=
  match pyFloat? j with
  | some q => if q < 0 then 0 else if 1 < q then 1 else q
  | none => mkRat 1 2

/-- Model of `str.replace(pat, "")` (all occurrences, left to right, non-overlapping;
also used for the noise-word and currency-symbol removals).  `fuel` bounds
the recursion; every step consumes at least one character of `s`, so
`s.length` is always enough fuel. -/
def removeAllAux (pat : List Char) : ℕ → List Char → List Char
  | 0, s => s
  | _ + 1, [] => []
  | fuel + 1, c :: rest =>
    if pat ≠ [] ∧ pat.isPrefixOf (c :: rest) then
      removeAllAux pat fuel ((c :: rest).drop pat.length)
    else
      c :: removeAllAux pat fuel rest

/-- Model of `s.replace(pat, "")`. -/
def removeAll (pat s : List Char) : List Char :=
  removeAllAux pat s.length s

/-- Currency symbols stripped by `_parse_amount`, in source order. -/
def currencySymbols : List String := ["₽", "$", "€", "руб.", "руб", "р."]

/-- Model of `OCRService._parse_amount` on an amount that arrived as a string:
strip, remove currency symbols, strip leading sign characters (`−-+`),
strip again, apply the comma/dot rule, remove spaces and no-break spaces,
`Decimal(text)`, absolute value. -/
def parseAmountStr (s : String) : Option ℚ :=
  let t := pyStrip s.data
  let t := currencySymbols.foldl (fun acc sym => removeAll sym.data acc) t
  let t := t.dropWhile (fun c => c = '−' || c = '-' || c = '+')
  let t := pyStrip t
  let t :=
    if t.contains ',' ∧ ¬ t.contains '.' then
      (t.filter (fun c => c ≠ ' ' ∧ c ≠ ' ')).map
        (fun c => if c = ',' then '.' else c)
    else
      t.filter (fun c => c ≠ ' ' ∧ c ≠ ' ')
  (decLit? t).map (fun q => if q < 0 then -q else q)

/-- Model of `OCRService._parse_amount(str(raw_amount))` on a decoded JSON value.
A number's `str()` feeds the same pipeline and comes out as its absolute
value; `str()` of `None`/booleans/lists/objects is non-numeric text on which
`Decimal` raises, reported as `none`. -/
def parseAmountJson : Json → Option ℚ
  | Json.num q => some (if q < 0 then -q else q)
  | Json.str s => parseAmountStr s
  | _ => none

/-! ## `merchant_normalization.py`

The regex substitutions of `normalize_merchant_name` are embedded as
specialized left-to-right scanners.  Each substitution of the source deletes
its match (or, for the punctuation rule, rewrites single characters), so a
single generic deleting scanner `scanSub` covers them.  `prev` carries the
character to the left of the scan position in the *original* string, which is
what the zero-width `\b` lookbehind inspects. -/

/-- Generic left-to-right regex-deletion scanner: at every position, `m prev
s` reports how many characters the pattern consumes there (`none` = no match;
matchers never report 0).  A match is deleted and scanning resumes after it,
as `re.sub(pat, '', text)` does.  `fuel = s.length` suffices since every step
consumes at least one character. -/
def scanSub (m : Option Char → List Char → Option ℕ) :
    ℕ → Option Char → List Char → List Char
  | 0, _, s => s
  | _ + 1, _, [] => []
  | fuel + 1, prev, c :: rest =>
    match m prev (c :: rest) with
    | some k =>
      scanSub m fuel ((c :: rest).get? (k - 1)) ((c :: rest).drop k)
    | none => c :: scanSub m fuel (some c) rest

/-- Run a deleting scanner over a whole string. -/
def applyScan (m : Option Char → List Char → Option ℕ) (l : List Char) :
    List Char :=
  scanSub m l.length none l

/-- Model of `_NOISE_WORDS` already ordered as `sorted(_NOISE_WORDS, key=len,
reverse=True)` orders them (Python's sort is stable, so ties keep source
order). -/
def noiseWordsSorted : List String :=
  ["оплата товаров и услуг", "безналичная оплата", "мобильный банк",
   "зачисление", "purchase", "списание", "операция", "по карте",
   "покупка", "перевод", "payment", "возврат", "оплата", "пр."]

/-- The alternatives of `_LEGAL_PREFIXES`, in alternation order. -/
def legalPrefixAlts : List String := ["ооо", "ип", "ао", "пао", "зао", "нко", "ук"]

/-- Matcher for `\b(ооо|ип|ао|пао|зао|нко|ук)\s+`: a word boundary before the
alternative (start of string or a non-word character on the left), the
alternative itself, then at least one whitespace character, consumed
greedily. -/
def legalPrefixMatch (prev : Option Char) (s : List Char) : Option ℕ :=
  if prev.all (fun c => ¬ isWordChar c) then
    legalPrefixAlts.findSome? (fun alt =>
      let a := alt.data
      if a.isPrefixOf s then
        let ws := (s.drop a.length).takeWhile isPySpace
        if ws.length ≥ 1 then some (a.length + ws.length) else none
      else none)
  else none

/-- Matcher for the card-number pattern
`\d{4}[-\s*]\d{4}[-\s*]\d{4}[-\s*]\d{4}`. -/
def cardMatch (_ : Option Char) (s : List Char) : Option ℕ :=
  let sep := fun c => c = '-' || c = '*' || isPySpace c
  let grp := fun (l : List Char) => (l.take 4).length = 4 ∧ (l.take 4).all isAsciiDigit
  if grp s ∧ sep ((s.drop 4).headD ' ') then
    if grp (s.drop 5) ∧ sep ((s.drop 9).headD ' ') then
      if grp (s.drop 10) ∧ sep ((s.drop 14).headD ' ') then
        if grp (s.drop 15) then some 19 else none
      else none
    else none
  else none

/-- Matcher for the decimal-amount pattern `\d+[.,]\d+`: a maximal digit run,
a decimal mark, a second maximal digit run.  (Backtracking inside `\d+`
cannot create other matches at the same position, since every shorter run is
followed by a digit, which is not `[.,]`.) -/
def amountMatch (_ : Option Char) (s : List Char) : Option ℕ :=
  let r1 := s.takeWhile isAsciiDigit
  if r1.length ≥ 1 then
    let rest := s.drop r1.length
    match rest with
    | m :: r2 =>
      if m = ',' ∨ m = '.' then
        let r3 := r2.takeWhile isAsciiDigit
        if r3.length ≥ 1 then some (r1.length + 1 + r3.length) else none
      else none
    | [] => none
  else none

/-- Matcher for the date pattern: two digits, a separator (dot, slash or
hyphen), two digits, a separator, then two to four digits taken greedily. -/
def dateMatch (_ : Option Char) (s : List Char) : Option ℕ :=
  let sep := fun c => c = '.' || c = '/' || c = '-'
  let d2 := fun (l : List Char) => (l.take 2).length = 2 ∧ (l.take 2).all isAsciiDigit
  if d2 s ∧ sep ((s.drop 2).headD ' ') then
    if d2 (s.drop 3) ∧ sep ((s.drop 5).headD ' ') then
      let tail := (s.drop 6).takeWhile isAsciiDigit
      let k := min tail.length 4
      if k ≥ 2 then some (6 + k) else none
    else none
  else none

/-- Does `[#№]\s*\d+` match here and run to the end of the string?  Used by
the end-anchored reference-number substitution. -/
def refToEnd (s : List Char) : Bool :=
  match s with
  | c :: rest =>
    if c = '#' ∨ c = '№' then
      let ds := rest.dropWhile isPySpace
      ds.length ≥ 1 ∧ ds.all isAsciiDigit
    else false
  | [] => false

/-- Model of `re.sub(r'[#№]\s*\d+$', '', text)`: delete the leftmost match that
reaches the end of the string. -/
def trailingRefSub : List Char → List Char
  | [] => []
  | c :: rest =>
    if refToEnd (c :: rest) then [] else c :: trailingRefSub rest

/-- Does `no\s*\d+` match here (after a word boundary) and run to the end? -/
def noRefToEnd (prev : Option Char) (s : List Char) : Bool :=
  if prev.all (fun c => ¬ isWordChar c) then
    match s with
    | 'n' :: 'o' :: rest =>
      let ds := rest.dropWhile isPySpace
      ds.length ≥ 1 ∧ ds.all isAsciiDigit
    | _ => false
  else false

/-- Model of `re.sub(r'\bno\s*\d+$', '', text)` (the text is lowercase by this point,
so the `re.IGNORECASE` flag changes nothing). -/
def trailingNoSub (prev : Option Char) : List Char → List Char
  | [] => []
  | c :: rest =>
    if noRefToEnd prev (c :: rest) then []
    else c :: trailingNoSub (some c) rest

/-- Model of `re.sub(r'(?<=\w)[./\\](?=\w)', ' ', text)`: a dot, slash or backslash
between two word characters (lookarounds inspect the original string) becomes
a space. -/
def wordPunctSub (prev : Option Char) : List Char → List Char
  | [] => []
  | c :: rest =>
    let hit := (c = '.' ∨ c = '/' ∨ c = '\\') ∧
      prev.any isWordChar ∧ isWordChar (rest.headD ' ')
    (if hit then ' ' else c) :: wordPunctSub (some c) rest

/-- The stray-punctuation class `[«»""\'*]` of the source: `«`, `»`, the
ASCII double quote (listed twice there), the apostrophe and the asterisk. -/
def isStrayPunct (c : Char) : Bool :=
  c = '«' || c = '»' || c = '"' || c = '\'' || c = '*'

/-- Collapse every maximal run of spaces to a single space (the input has
already had every whitespace character mapped to a space, so this models
`re.sub(r'\s+', ' ', text)`). -/
def squeezeSpaces : List Char → List Char
  | [] => []
  | [c] => [c]
  | a :: b :: rest =>
    if a = ' ' ∧ b = ' ' then squeezeSpaces (b :: rest)
    else a :: squeezeSpaces (b :: rest)

/-- Model of `normalize_merchant_name` (merchant_normalization.py): lowercase + strip,
remove noise words longest-first, strip legal-entity prefixes, remove card
numbers / decimal amounts / dates, remove trailing reference numbers, turn
inter-word punctuation into spaces, drop stray punctuation, collapse
whitespace, truncate to 500 characters. -/
def normalize_merchant_name (s : String) : String :=
  let t := pyStrip (s.data.map ruLower)
  let t := noiseWordsSorted.foldl (fun acc w => removeAll w.data acc) t
  let t := applyScan legalPrefixMatch t
  let t := applyScan cardMatch t
  let t := applyScan amountMatch t
  let t := applyScan dateMatch t
  let t := trailingRefSub t
  let t := trailingNoSub none t
  let t := wordPunctSub none t
  let t := t.filter (fun c => ¬ isStrayPunct c)
  let t := pyStrip (squeezeSpaces (t.map (fun c => if isPySpace c then ' ' else c)))
  String.mk (t.take 500)

/-! ## Response extractor (`OCRService._parse_single_tx`, `_parse_response`,
`_parse_multiple_response`, `_parse_chart`)

These functions run on the decoded JSON value produced by `_extract_json`.
`Except Unit` models a Python exception aborting the whole call (uncaught
`ValueError` / `AttributeError` / pydantic `ValidationError`); `Option`
models a caught exception that merely skips an item. -/

/-- The transaction value built by `_parse_single_tx` (`ParsedTransaction`
without `raw_text`, which the caller overwrites).  The date is kept as the
raw JSON field: `_parse_date` never fails (it falls back to "now"), and no
claim depends on calendar arithmetic. -/
structure ParsedTx where
  amount : ℚ
  description : String
  dateField : Json
  category : String
  txType : String
  currency : String
  confidence : ℚ

/-- The learned-category override hook `_apply_learned_category(description,
category, confidence)`; the parsers take it as a parameter (it reads the
per-user learned mappings, modelled separately below). -/
def OverrideHook := String → String → ℚ → String × ℚ

/-- Model of `OCRService._parse_single_tx(data)`: `.ok none` = transaction skipped
(amount missing or unparseable — the `try` around `_parse_amount` catches
`KeyError`/`InvalidOperation`/`TypeError`/`ValueError`, which also covers a
non-dict `data`), `.error` = call aborted (a non-string `description`
reaches `normalize_merchant_name`/pydantic and raises). -/
def parseSingleTx (ov : OverrideHook) (d : Json) : Except Unit (Option ParsedTx) :=
  match d.get? "amount" with
  | none => .ok none
  | some a =>
    match parseAmountJson a with
    | none => .ok none
    | some amt =>
      match d.getD "description" (Json.str "Unknown") with
      | Json.str desc =>
        let dateF := d.getD "date" (Json.str "")
        let category := normalizeCategoryJson (d.getD "category" (Json.str "Other"))
        let conf := clampConfidence (d.getD "confidence" (Json.num (mkRat 1 2)))
        let txType :=
          match d.getD "type" (Json.str "expense") with
          | Json.str t => if t = "expense" ∨ t = "income" then t else "expense"
          | _ => "expense"
        let currency :=
          match d.getD "currency" (Json.str "RUB") with
          | Json.str c => if c.length = 3 then c else "RUB"
          | _ => "RUB"
        let oc := ov desc category conf
        .ok (some {
          amount := amt,
          description := desc,
          dateField := dateF,
          category := oc.1,
          txType := txType,
          currency := String.mk (currency.data.map ruUpper),
          confidence := oc.2 })
      | _ => .error ()

/-- A chart category entry parsed by `_parse_chart` (name kept raw). -/
structure ChartCat where
  name : Json
  value : ℚ
  percentage : Option ℚ

/-- A chart parsed by `_parse_chart` (free-form fields kept raw). -/
structure Chart where
  ctype : Json
  categories : List ChartCat
  total : ℚ
  period : Json
  periodType : Json
  confidence : ℚ

/-- One entry of the `_parse_chart` category loop: `.ok none` = entry
skipped (its inner `try` catches `InvalidOperation`/`TypeError`/`ValueError`
from the value/percentage conversions), `.error` = a non-dict entry, whose
`cat.get` raises an `AttributeError` that no handler catches. -/
def parseChartCat (cat : Json) : Except Unit (Option ChartCat) :=
  match cat with
  | Json.obj _ =>
    match pyDecimalOfStr? (cat.getD "value" (Json.num 0)) with
    | none => .ok none
    | some value =>
      match cat.get? "percentage" with
      | none => .ok (some ⟨cat.getD "name" (Json.str "Unknown"), value, none⟩)
      | some Json.null => .ok (some ⟨cat.getD "name" (Json.str "Unknown"), value, none⟩)
      | some p =>
        match pyFloat? p with
        | some f => .ok (some ⟨cat.getD "name" (Json.str "Unknown"), value, some f⟩)
        | none => .ok none
  | _ => .error ()

/-- The `_parse_chart` category loop. -/
def parseChartCats : List Json → Except Unit (List ChartCat)
  | [] => .ok []
  | c :: rest => do
    let o ← parseChartCat c
    let t ← parseChartCats rest
    match o with
    | some cc => .ok (cc :: t)
    | none => .ok t

/-- Model of `OCRService._parse_chart(chart)`: `.ok none` = no chart recognized
(falsy input, no valid category entry, or a `TypeError` caught by the outer
handler), `.ok (some c)` = chart recognized, `.error` = uncaught exception
(truthy non-dict input raises `AttributeError`; an unparseable `total`
raises `InvalidOperation`, which the outer `except (KeyError, TypeError,
ValueError)` does not catch). -/
def parseChart (chart : Json) : Except Unit (Option Chart) :=
  if ¬ chart.truthy then .ok none
  else
    match chart with
    | Json.obj _ =>
      match chart.getD "categories" (Json.arr []) with
      | Json.arr l => do
        let cats ← parseChartCats l
        if cats.isEmpty then .ok none
        else
          match pyDecimalOfStr? (chart.getD "total" (Json.num 0)) with
          | some total =>
            .ok (some {
              ctype := chart.getD "type" (Json.str "unknown"),
              categories := cats,
              total := total,
              period := chart.getD "period" Json.null,
              periodType := chart.getD "period_type" (Json.str "month"),
              confidence := clampConfidence (chart.getD "confidence" (Json.num (mkRat 1 2))) })
          | none => .error ()
      | Json.str s => if s = "" then .ok none else .error ()
      | Json.obj f => if f.isEmpty then .ok none else .error ()
      | Json.num _ => .ok none
      | Json.bool _ => .ok none
      | Json.null => .ok none
    | _ => .error ()

/-- The transaction loop of `_parse_multiple_response`: parse each raw
transaction, keep the successful ones in order, silently drop the skipped
ones, abort on an uncaught exception. -/
def parseTxList (ov : OverrideHook) : List Json → Except Unit (List ParsedTx)
  | [] => .ok []
  | d :: rest => do
    let o ← parseSingleTx ov d
    let t ← parseTxList ov rest
    match o with
    | some tx => .ok (tx :: t)
    | none => .ok t

/-- The result shape of `_parse_multiple_response` (without `raw_text`). -/
structure MultiResult where
  transactions : List ParsedTx
  totalAmount : ℚ
  chart : Option Chart

/-- Model of `OCRService._parse_multiple_response` on the decoded response: a
non-dict response or a non-list `"transactions"` raises `ValueError`; the
transactions are parsed, then the chart; a recognized chart wins — the
transaction list is replaced by `[]` and the total is the chart's total;
otherwise the total is `Decimal(str(data.get("total_amount", 0)))`, falling
back to the sum of the parsed amounts when that conversion raises. -/
def parseMultipleResponse (ov : OverrideHook) (d : Json) : Except Unit MultiResult :=
  match d with
  | Json.obj _ =>
    match d.getD "transactions" (Json.arr []) with
    | Json.arr l => do
      let txs ← parseTxList ov l
      let chart? ← parseChart (d.getD "chart" Json.null)
      match chart? with
      | some c => .ok ⟨[], c.total, some c⟩
      | none =>
        let total :=
          match pyDecimalOfStr? (d.getD "total_amount" (Json.num 0)) with
          | some t => t
          | none => (txs.map (·.amount)).sum
        .ok ⟨txs, total, none⟩
    | _ => .error ()
  | _ => .error ()

/-- Model of `OCRService._parse_response` on the decoded response (single-transaction
path): unwrap a list to its first element (empty list raises), require a
dict, descend into a non-empty `"transactions"` list, and raise when
`_parse_single_tx` returns `None`. -/
def parseResponse (ov : OverrideHook) (d : Json) : Except Unit ParsedTx := do
  let d ←
    match d with
    | Json.arr [] => .error ()
    | Json.arr (x :: _) => .ok x
    | _ => .ok d
  match d with
  | Json.obj _ =>
    let d :=
      match d.get? "transactions" with
      | some (Json.arr (x :: _)) => x
      | _ => d
    match parseSingleTx ov d with
    | .ok (some tx) => .ok tx
    | .ok none => .error ()
    | .error e => .error e
  | _ => .error ()

/-! ## Spreadsheet service (`excel_service.py`) -/

/-- Model of `_parse_russian_number(value)` on the (already stringified, stripped,
non-empty checked by the caller) cell text: remove currency symbols and
whitespace, turn the comma into a dot, strip leading plus signs, `Decimal`.
The sign is preserved (negative = expense). -/
def parseRussianNumber (s : String) : Option ℚ :=
  let t := pyStrip s.data
  if t.isEmpty then none
  else
    let t := t.filter (fun c => ¬ (c = '₽' ∨ c = '$' ∨ c = '€' ∨ c = '£' ∨ isPySpace c))
    let t := t.map (fun c => if c = ',' then '.' else c)
    let t := t.dropWhile (fun c => c = '+')
    decLit? t

/-- The amount handling of the row loop in `parse_excel_bytes`: a cell whose
parse fails or yields zero is skipped; otherwise the sign decides the
transaction type and the stored amount is the absolute value. -/
def excelRowAmount (s : String) : Option (ℚ × String) :=
  match parseRussianNumber s with
  | none => none
  | some a =>
    if a = 0 then none
    else some (if a < 0 then -a else a, if 0 < a then "income" else "expense")

/-- Model of `_DATE_PATTERNS`. -/
def datePatterns : List String := ["дата", "date"]

/-- Model of `_AMOUNT_PATTERNS`. -/
def amountPatterns : List String := ["сумма", "amount", "стоимость", "расход", "приход"]

/-- Model of `_DESC_PATTERNS`. -/
def descPatterns : List String :=
  ["описание", "description", "назначение", "наименование",
   "получатель", "merchant", "контрагент", "название",
   "комментарий", "детали", "информация", "memo", "details",
   "категория операции"]

/-- Model of `_DESC_NEGATIVE`. -/
def descNegative : List String :=
  ["валюта", "статус", "номер", "баланс", "остаток", "счёт", "счет", "mcc"]

/-- Substring membership (Python's `p in header`). -/
def containsSub (pat : List Char) : List Char → Bool
  | [] => pat.isEmpty
  | c :: rest => pat.isPrefixOf (c :: rest) || containsSub pat rest

/-- Model of `_normalize_header`: `str(value).strip().lower()`. -/
def normalizeHeader (s : String) : List Char :=
  (pyStrip s.data).map ruLower

/-- Model of `_header_matches`. -/
def headerMatches (h : List Char) (pats : List String) : Bool :=
  pats.any (fun p => containsSub p.data h)

/-- The partial role assignment built by the `_detect_columns` loop. -/
structure ColState where
  date : Option ℕ
  amount : Option ℕ
  desc : Option ℕ

/-- One iteration of the `_detect_columns` loop (the `if/elif` chain over a
normalized header cell at index `idx`). -/
def detectStep (st : ColState) (idx : ℕ) (h : List Char) : ColState :=
  if h.isEmpty then st
  else if st.date = none ∧ headerMatches h datePatterns then
    { st with date := some idx }
  else if st.amount = none ∧ headerMatches h amountPatterns ∧ ¬ headerMatches h datePatterns then
    { st with amount := some idx }
  else if st.desc = none ∧ headerMatches h descPatterns then
    if ¬ headerMatches h descNegative ∧ ¬ headerMatches h datePatterns then
      { st with desc := some idx }
    else st
  else st

/-- The `_detect_columns` loop over all header cells. -/
def detectLoop : ℕ → List (List Char) → ColState → ColState
  | _, [], st => st
  | idx, h :: rest, st => detectLoop (idx + 1) rest (detectStep st idx h)

/-- The description fallback loop of `_detect_columns`: first unclaimed,
non-empty, non-date, non-negative-listed header. -/
def descFallback (used : List ℕ) : ℕ → List (List Char) → Option ℕ
  | _, [] => none
  | idx, h :: rest =>
    if ¬ used.contains idx ∧ ¬ h.isEmpty ∧
        ¬ headerMatches h datePatterns ∧ ¬ headerMatches h descNegative then
      some idx
    else descFallback used (idx + 1) rest

/-- The column mapping returned by detection.  Indices are integers because
the AI fallback converts whatever the model answered with Python's `int`. -/
structure ColumnMapping where
  date : ℤ
  amount : ℤ
  description : ℤ
deriving DecidableEq

/-- Model of `_detect_columns(headers)`: the heuristic phase. -/
def detectColumns (headers : List String) : Option ColumnMapping :=
  let normalized := headers.map normalizeHeader
  let st := detectLoop 0 normalized ⟨none, none, none⟩
  let st :=
    match st.date, st.amount, st.desc with
    | some d, some a, none =>
      { st with desc := descFallback [d, a] 0 normalized }
    | _, _, _ => st
  match st.date, st.amount, st.desc with
  | some d, some a, some ds => some ⟨(d : ℤ), (a : ℤ), (ds : ℤ)⟩
  | _, _, _ => none

/-- Model of `ExcelParsingService._detect_columns_with_ai`, from the decoded JSON
answer of the text model on: accept a dict in which the keys `date`,
`amount`, `description` are all present and non-null, converting each value
with `int(...)`; any other shape, or a failing conversion, yields `None`
(the surrounding `except Exception` also swallows call failures, which are
out of scope here). -/
def detectColumnsWithAI (j : Json) : Option ColumnMapping :=
  match j with
  | Json.obj _ =>
    match j.get? "date", j.get? "amount", j.get? "description" with
    | some dj, some aj, some dsj =>
      if ¬ dj.isNull ∧ ¬ aj.isNull ∧ ¬ dsj.isNull then
        match pyInt? dj, pyInt? aj, pyInt? dsj with
        | some d, some a, some ds => some ⟨d, a, ds⟩
        | _, _, _ => none
      else none
    | _, _, _ => none
  | _ => none

/-- Model of `VALID_INCOME_CATEGORIES` (excel_service.py). -/
def VALID_INCOME_CATEGORIES : List String :=
  ["Salary", "Transfer", "Cashback", "Investment", "OtherIncome"]

/-- The `normalize` closure inside `_categorize_descriptions`: income
categories are checked against the income set with the `"OtherIncome"`
sentinel; expense categories go through `_normalize_category`, i.e. the
*combined* `VALID_CATEGORIES` set with the `"Other"` sentinel. -/
def excelNormalizeCat (isIncome : Bool) (cat : String) : String :=
  if isIncome then
    if VALID_INCOME_CATEGORIES.contains cat then cat else "OtherIncome"
  else normalizeCategory cat

/-- The expense categories enumerated by the prompts and the spec. -/
def EXPENSE_CATEGORIES : List String :=
  ["Food", "Transport", "Entertainment", "Shopping", "Bills", "Health", "Other"]

/-- Modelled from the spec (§4.2 CategoryValidator), for comparison with the
code's validator: "maps any string to itself if it is a member of the fixed
enumerated category set (separate sets for expense and income), else
substitutes the default Other/OtherIncome sentinel". -/
def specCategoryValidator (isIncome : Bool) (cat : String) : String :=
  if isIncome then
    if VALID_INCOME_CATEGORIES.contains cat then cat else "OtherIncome"
  else
    if EXPENSE_CATEGORIES.contains cat then cat else "Other"

/-! ## Learning service (`learning_service.py`) -/

/-- A `CategoryCorrection` row. -/
structure Correction where
  userId : ℕ
  transactionId : ℕ
  originalCategory : String
  correctedCategory : String
  confidence : ℚ
  merchantNormalized : String
deriving DecidableEq

/-- A `MerchantCategoryMapping` row. -/
structure Mapping where
  userId : ℕ
  merchantNormalized : String
  learnedCategory : String
  correctionCount : ℕ
  confidence : ℚ
deriving DecidableEq

/-- The first `count` query of `_update_merchant_mapping`: corrections of
this user for this merchant that chose exactly this category. -/
def categoryCount (cs : List Correction) (u : ℕ) (merchant category : String) : ℕ :=
  (cs.filter (fun x =>
    x.userId = u ∧ x.merchantNormalized = merchant ∧ x.correctedCategory = category)).length

/-- The second `count` query: all corrections of this user for this
merchant. -/
def totalCount (cs : List Correction) (u : ℕ) (merchant : String) : ℕ :=
  (cs.filter (fun x => x.userId = u ∧ x.merchantNormalized = merchant)).length

/-- Update the first row matched by `p` (the ORM's `.first()` row is mutated
in place). -/
def updateFirstMapping (p : Mapping → Bool) (f : Mapping → Mapping) :
    List Mapping → List Mapping
  | [] => []
  | x :: xs => if p x then f x :: xs else x :: updateFirstMapping p f xs

/-- Model of `_update_merchant_mapping(db, merchant, category, user_id)`: count, test
the 3-correction / 70%-agreement threshold, and upsert the per-user mapping
row. -/
def updateMerchantMapping (cs : List Correction) (maps : List Mapping)
    (merchant category : String) (u : ℕ) : List Mapping :=
  let cc := categoryCount cs u merchant category
  let tc := totalCount cs u merchant
  if 3 ≤ cc ∧ (7 : ℚ) / 10 ≤ (cc : ℚ) / (tc : ℚ) then
    let conf := min ((19 : ℚ) / 20) ((cc : ℚ) / (tc : ℚ))
    let key := fun (mp : Mapping) =>
      decide (mp.userId = u ∧ mp.merchantNormalized = merchant)
    if maps.any key then
      updateFirstMapping key
        (fun mp => { mp with
          learnedCategory := category,
          correctionCount := cc,
          confidence := conf }) maps
    else
      maps ++ [⟨u, merchant, category, cc, conf⟩]
  else maps

/-- The learning tables touched by `log_correction`. -/
structure LearnState where
  corrections : List Correction
  mappings : List Mapping
deriving DecidableEq

/-- The transaction fields read by `log_correction`. -/
structure TxRow where
  id : ℕ
  description : String
  category : String
  aiCategory : Option String
  aiConfidence : Option ℚ
deriving DecidableEq

/-- Model of `log_correction(db, transaction, user_id)`: a no-op unless the
transaction carries a truthy `ai_category` that differs from its current
category; otherwise append a correction row (the `flush` makes it visible to
the counts) and re-evaluate the merchant mapping. -/
def log_correction (st : LearnState) (tx : TxRow) (u : ℕ) : LearnState :=
  match tx.aiCategory with
  | none => st
  | some ac =>
    if ac = "" ∨ ac = tx.category then st
    else
      let merchant := normalize_merchant_name tx.description
      let conf :=
        match tx.aiConfidence with
        | some q => if q = 0 then mkRat 1 2 else q
        | none => mkRat 1 2
      let corr : Correction := ⟨u, tx.id, ac, tx.category, conf, merchant⟩
      let cs := st.corrections ++ [corr]
      ⟨cs, updateMerchantMapping cs st.mappings merchant tx.category u⟩

/-- Model of `get_learned_category(db, description, user_id)`. -/
def get_learned_category (maps : List Mapping) (description : String) (u : ℕ) :
    Option (String × ℚ) :=
  let merchant := normalize_merchant_name description
  (maps.find? (fun mp =>
    decide (mp.userId = u ∧ mp.merchantNormalized = merchant))).map
    (fun mp => (mp.learnedCategory, mp.confidence))

/-- Model of `apply_learned_category(db, user_id, description, category, confidence)`:
pass through when the session or user id is falsy; otherwise override with
the learned mapping exactly when its confidence strictly exceeds the
supplied one. -/
def apply_learned_category (db : Option (List Mapping)) (userId : Option ℕ)
    (description category : String) (confidence : ℚ) : String × ℚ :=
  match db, userId with
  | some maps, some u =>
    if u = 0 then (category, confidence)
    else
      match get_learned_category maps description u with
      | some (lc, lconf) =>
        if confidence < lconf then (lc, lconf) else (category, confidence)
      | none => (category, confidence)
  | _, _ => (category, confidence)

/-! ## Retry controller (`OCRService._call_with_retry`) -/

/-- The exception classes the retry loop catches, one attempt = one
`invoke + parse`.  `parseFailure` covers the `ValueError`/`KeyError` family
(malformed JSON, empty response, malformed shape). -/
inductive ApiError where
  | timeout
  | connection
  | status (code : ℕ)
  | parseFailure

/-- Model of `OCRService._is_retriable`. -/
def isRetriable : ApiError → Bool
  | .timeout => true
  | .connection => true
  | .status c => decide (500 ≤ c) || decide (c = 429)
  | .parseFailure => true

/-- Outcome of one attempt (`_call_vision_api` followed by the parser). -/
inductive CallOutcome (T : Type) where
  | ok (t : T)
  | fail (e : ApiError)

/-- The `for attempt in range(MAX_RETRIES)` loop of `_call_with_retry`,
instantiated with the list of remaining attempt indices.  Returns the
outcome (`.error none` models `raise last_error` with no attempt made — the
entry point never produces it), the number of calls performed, and the list
of back-off delays slept. -/
def callWithRetryLoop (attempts : ℕ → CallOutcome T) (base : ℚ) :
    List ℕ → Except (Option ApiError) T × ℕ × List ℚ
  | [] => (.error none, 0, [])
  | i :: rest =>
    match attempts i with
    | .ok t => (.ok t, 1, [])
    | .fail e =>
      if ¬ isRetriable e ∨ rest.isEmpty then (.error (some e), 1, [])
      else
        let (r, n, ds) := callWithRetryLoop attempts base rest
        (r, n + 1, base * 2 ^ i :: ds)

/-- Model of `MAX_RETRIES`. -/
def MAX_RETRIES : ℕ := 3

/-- Model of `OCRService._call_with_retry` over the sequence of attempt outcomes. -/
def callWithRetry (attempts : ℕ → CallOutcome T) (base : ℚ) :
    Except (Option ApiError) T × ℕ × List ℚ :=
  callWithRetryLoop attempts base (List.range MAX_RETRIES)

/-! ## Auxiliary definitions for the theorems, witnesses and counterexamples -/

/-- The identity override hook (`db is None`: learning disabled). -/
def trivialHook : OverrideHook := fun _ c q => (c, q)


/-- Attempt sequences used by the retry witness. -/
def attemptsParseThenOk : ℕ → CallOutcome ℕ := fun i => if i = 0 then .fail .parseFailure else .ok 7

def attemptsBadRequest : ℕ → CallOutcome ℕ := fun _ => .fail (.status 400)

/-- Number of `MerchantCategoryMapping` rows for one `(user, merchant_key)`
pair (the uniqueness invariant counts these). -/
def mappingKeyCount (maps : List Mapping) (u : ℕ) (m : String) : ℕ :=
  (maps.filter (fun mp => decide (mp.userId = u ∧ mp.merchantNormalized = m))).length

/-- Correction rows used by the promotion boundary witness. -/
def bdCorr (c : String) : Correction := ⟨1, 0, "Shopping", c, 1/2, "x"⟩

def bdCs34 : List Correction := [bdCorr "Food", bdCorr "Food", bdCorr "Food", bdCorr "Transport"]

def bdCs24 : List Correction := [bdCorr "Food", bdCorr "Food", bdCorr "Transport", bdCorr "Transport"]

def bdCs35 : List Correction :=
  [bdCorr "Food", bdCorr "Food", bdCorr "Food", bdCorr "Transport", bdCorr "Transport"]

def bdCs33 : List Correction := [bdCorr "Food", bdCorr "Food", bdCorr "Food"]

/-- Concrete response carrying both a transaction list and a chart, for the
chart-priority witness. -/
def c1Resp : Json := Json.obj [
  ("transactions", Json.arr [Json.obj [
    ("amount", Json.num 100), ("description", Json.str "Store"),
    ("date", Json.str "2026-01-15"), ("category", Json.str "Food"),
    ("confidence", Json.num 1)]]),
  ("total_amount", Json.num 100),
  ("chart", Json.obj [
    ("type", Json.str "pie"),
    ("categories", Json.arr [
      Json.obj [("name", Json.str "Food"), ("value", Json.num 5000),
        ("percentage", Json.num 50)],
      Json.obj [("name", Json.str "Transport"), ("value", Json.num 3000),
        ("percentage", Json.num 30)]]),
    ("total", Json.num 10000),
    ("period", Json.str "2026-01"),
    ("period_type", Json.str "month"),
    ("confidence", Json.num 1)])]

/-- The chart recognized inside `c1Resp`. -/
def c1Chart : Chart :=
  { ctype := Json.str "pie",
    categories := [⟨Json.str "Food", 5000, some 50⟩, ⟨Json.str "Transport", 3000, some 30⟩],
    total := 10000,
    period := Json.str "2026-01",
    periodType := Json.str "month",
    confidence := 1 }

/-- The result of the multi-transaction parse of `c1Resp`. -/
def c1Result : MultiResult := ⟨[], 10000, some c1Chart⟩

/-- A response whose only transaction reports amount `0` — accepted by the
image pipeline. -/
def zeroAmountResp : Json := Json.obj [
  ("transactions", Json.arr [Json.obj [
    ("amount", Json.num 0), ("description", Json.str "Zero line")]])]

/-- The transaction the image pipeline produces for `zeroAmountResp`. -/
def zeroAmountTx : ParsedTx :=
  ⟨0, "Zero line", Json.str "", "Other", "expense", "RUB", mkRat 1 2⟩

/-- A raw transaction object with no usable amount. -/
def noAmountObj : Json := Json.obj [("description", Json.str "No amount")]

/-- A well-formed raw transaction object. -/
def validTxObj : Json := Json.obj [
  ("amount", Json.num 100), ("description", Json.str "Valid"),
  ("date", Json.str "2026-01-16"), ("category", Json.str "Food"),
  ("confidence", Json.num 1)]

/-- The parse of `validTxObj`. -/
def validParsedTx : ParsedTx :=
  ⟨100, "Valid", Json.str "2026-01-16", "Food", "expense", "RUB", 1⟩

/-- The role invariant maintained by the `_detect_columns` loop: every
assigned index is below the scan position and the three roles never share an
index. -/
def colInv (st : ColState) (n : ℕ) : Prop :=
  (∀ i, st.date = some i → i < n) ∧ (∀ i, st.amount = some i → i < n) ∧
  (∀ i, st.desc = some i → i < n) ∧
  (∀ i j, st.date = some i → st.amount = some j → i ≠ j) ∧
  (∀ i j, st.date = some i → st.desc = some j → i ≠ j) ∧
  (∀ i j, st.amount = some i → st.desc = some j → i ≠ j)

/-- An AI column-detection answer whose three indices coincide. -/
def aiOverlapAnswer : Json :=
  Json.obj [("date", Json.num 0), ("amount", Json.num 0), ("description", Json.num 0)]

/-! ## Theorems -/


/-- C10: for every transaction whose AI-suggested category is `None` or the
empty string, `log_correction` is a complete no-op — no correction row is
appended and no merchant mapping is created or updated — even when the
transaction's stored category differs from the (absent) suggestion. -/
theorem log_correction_noop_without_ai_category (st : LearnState) (tx : TxRow) (u : ℕ)
    (h : tx.aiCategory = none ∨ tx.aiCategory = some "") :
    log_correction st tx u = st := by
  rcases h with h | h <;> simp [log_correction, h]

theorem log_correction_noop_witness :
    log_correction ⟨[], []⟩ ⟨7, "Пятёрочка", "Food", none, some (9/10)⟩ 1 = ⟨[], []⟩ ∧
    ("Food" : String) ≠ "" := by
  exact ⟨log_correction_noop_without_ai_category _ _ _ (Or.inl rfl), by decide⟩

/-- C9 (amended): category validation is total and maps a string to itself
exactly when it belongs to the set the code actually consults — the
spreadsheet income path checks the income set and falls back to
`"OtherIncome"`, while the expense path (`_normalize_category`, used by both
pipelines) checks the *combined* expense-and-income set and falls back to
`"Other"`. -/
theorem category_validation_total (c : String) :
    (VALID_CATEGORIES.contains c = true → normalizeCategory c = c)
    ∧ (VALID_CATEGORIES.contains c = false → normalizeCategory c = "Other")
    ∧ (VALID_INCOME_CATEGORIES.contains c = true → excelNormalizeCat true c = c)
    ∧ (VALID_INCOME_CATEGORIES.contains c = false → excelNormalizeCat true c = "OtherIncome")
    ∧ excelNormalizeCat false c = normalizeCategory c := by
  refine ⟨fun h => ?_, fun h => ?_, fun h => ?_, fun h => ?_, rfl⟩ <;>
    · simp only [excelNormalizeCat, normalizeCategory]
      rw [h]
      simp

theorem category_validation_witness :
    normalizeCategory "Food" = "Food" ∧ normalizeCategory "Groceries" = "Other" ∧
    excelNormalizeCat true "Salary" = "Salary" ∧ excelNormalizeCat true "Food" = "OtherIncome" := by
  refine ⟨(category_validation_total "Food").1 (by decide),
    (category_validation_total "Groceries").2.1 (by decide),
    (category_validation_total "Salary").2.2.1 (by decide),
    (category_validation_total "Food").2.2.2.1 (by decide)⟩

/-- C9 counterexample: the claim says the expense side uses a separate
expense set, but the code's expense validator accepts the income category
`"Salary"` unchanged, where a separate-set validator (`specCategoryValidator`,
modelled from the spec) would substitute `"Other"`. -/
theorem category_validation_counterexample :
    excelNormalizeCat false "Salary" = "Salary" ∧
    specCategoryValidator false "Salary" = "Other" ∧
    EXPENSE_CATEGORIES.contains "Salary" = false := by decide

/-- C6: for every store, (non-zero) user, description, category and
confidence, the learned-category override returns the input unchanged when no
mapping exists for the normalized description, and also unchanged when the
mapping's confidence is less than or equal to the supplied confidence; it
returns the learned pair exactly when the mapping's confidence strictly
exceeds the supplied confidence. -/
theorem learned_override_behavior (maps : List Mapping) (u : ℕ)
    (description category : String) (confidence : ℚ) (hu : u ≠ 0) :
    (get_learned_category maps description u = none →
      apply_learned_category (some maps) (some u) description category confidence
        = (category, confidence))
    ∧ (∀ lc lconf, get_learned_category maps description u = some (lc, lconf) →
        (lconf ≤ confidence →
          apply_learned_category (some maps) (some u) description category confidence
            = (category, confidence))
        ∧ (confidence < lconf →
          apply_learned_category (some maps) (some u) description category confidence
            = (lc, lconf))) := by
  constructor
  · intro h
    simp [apply_learned_category, hu, h]
  · intro lc lconf h
    constructor
    · intro hle
      simp [apply_learned_category, hu, h, not_lt.mpr hle]
    · intro hlt
      simp [apply_learned_category, hu, h, hlt]

theorem learned_override_witness :
    apply_learned_category (some [⟨1, "shop", "Food", 3, 9/10⟩]) (some 1) "Shop" "Other" (1/2)
      = ("Food", 9/10) ∧
    apply_learned_category (some [⟨1, "shop", "Food", 3, 9/10⟩]) (some 1) "Shop" "Other" (9/10)
      = ("Other", 9/10) ∧
    apply_learned_category (some []) (some 1) "Shop" "Other" (1/2) = ("Other", 1/2) := by
  refine ⟨((learned_override_behavior _ 1 "Shop" "Other" (1/2) (by decide)).2 "Food" (9/10)
      (by rfl)).2 (by norm_num),
    ((learned_override_behavior _ 1 "Shop" "Other" (9/10) (by decide)).2 "Food" (9/10)
      (by rfl)).1 (by norm_num),
    (learned_override_behavior [] 1 "Shop" "Other" (1/2) (by decide)).1 (by rfl)⟩


theorem callWithRetryLoop_calls_le (attempts : ℕ → CallOutcome T) (base : ℚ) :
    ∀ idxs : List ℕ, (callWithRetryLoop attempts base idxs).2.1 ≤ idxs.length := by
  intro idxs
  induction idxs with
  | nil => simp [callWithRetryLoop]
  | cons i rest ih =>
    simp only [callWithRetryLoop]
    cases attempts i with
    | ok t => simp
    | fail e =>
      simp only [callWithRetryLoop]
      split
      · simp
      · simpa using Nat.succ_le_succ ih

/-- C4: the retry controller makes at most 3 attempts; timeouts, connection
failures, parse failures, HTTP 5xx and HTTP 429 are retriable with
exponential backoff (`base`, `2·base`); any other HTTP 4xx fails immediately
after exactly 1 call; a parse failure on attempt 1 followed by success on
attempt 2 yields exactly 2 calls; on exhaustion the last error itself is
re-raised unchanged. -/
theorem retry_controller_policy (attempts : ℕ → CallOutcome T) (base : ℚ) :
    (callWithRetry attempts base).2.1 ≤ 3
    ∧ (isRetriable .timeout = true ∧ isRetriable .connection = true ∧
       isRetriable .parseFailure = true ∧
       (∀ c, 500 ≤ c → isRetriable (.status c) = true) ∧ isRetriable (.status 429) = true)
    ∧ (∀ c, 400 ≤ c → c < 500 → c ≠ 429 → attempts 0 = .fail (.status c) →
        callWithRetry attempts base = (.error (some (.status c)), 1, []))
    ∧ (∀ t, attempts 0 = .fail .parseFailure → attempts 1 = .ok t →
        callWithRetry attempts base = (.ok t, 2, [base]))
    ∧ (∀ e0 e1 e2, isRetriable e0 = true → isRetriable e1 = true →
        attempts 0 = .fail e0 → attempts 1 = .fail e1 → attempts 2 = .fail e2 →
        callWithRetry attempts base = (.error (some e2), 3, [base, 2 * base])) := by
  have hrange : List.range MAX_RETRIES = [0, 1, 2] := by decide
  refine ⟨?_, ⟨rfl, rfl, rfl, ?_, by decide⟩, ?_, ?_, ?_⟩
  · simpa [callWithRetry, hrange] using
      callWithRetryLoop_calls_le attempts base [0, 1, 2]
  · intro c h5
    simp [isRetriable, Nat.le_of_lt, h5]
  · intro c h4 h5 h429 h0
    have : isRetriable (.status c) = false := by
      simp [isRetriable, h429, Nat.not_le.mpr h5]
    simp [callWithRetry, hrange, callWithRetryLoop, h0, this]
  · intro t h0 h1
    simp [callWithRetry, hrange, callWithRetryLoop, h0, h1, isRetriable]
  · intro e0 e1 e2 hr0 hr1 h0 h1 h2
    simp [callWithRetry, hrange, callWithRetryLoop, h0, h1, h2, hr0, hr1]
    ring

theorem retry_controller_witness :
    callWithRetry attemptsParseThenOk 1 = (.ok 7, 2, [1]) ∧
    callWithRetry attemptsBadRequest 1 = (.error (some (.status 400)), 1, []) := by
  constructor
  · have h := (retry_controller_policy attemptsParseThenOk 1).2.2.2.1 7 rfl rfl
    simpa using h
  · have h := (retry_controller_policy attemptsBadRequest 1).2.2.1 400
      (by decide) (by decide) (by decide) rfl
    simpa using h


theorem updateFirstMapping_filter_length (p : Mapping → Bool) (f : Mapping → Mapping)
    (q : Mapping → Bool) (hf : ∀ mp, q (f mp) = q mp) :
    ∀ maps : List Mapping,
      ((updateFirstMapping p f maps).filter q).length = (maps.filter q).length := by
  intro maps
  induction maps with
  | nil => rfl
  | cons x xs ih =>
    simp only [updateFirstMapping]
    split
    · simp only [List.filter, hf]
      cases q x <;> simp
    · simp only [List.filter]
      cases q x <;> simp [ih]

/-- C3: promotion of a merchant-to-category mapping fires if and only if the
count of corrections choosing that category is at least 3 and that count
divided by the total corrections for the merchant key is at least 0.70; on
promotion the confidence is `min(0.95, category_count/total_count)` and
`correction_count` is `category_count`, the existing mapping being updated in
place when present and a new row inserted otherwise, preserving at most one
mapping per `(user, merchant_key)`. -/
theorem merchant_mapping_promotion (cs : List Correction) (maps : List Mapping)
    (merchant category : String) (u : ℕ) :
    (¬ (3 ≤ categoryCount cs u merchant category ∧
        (7 : ℚ) / 10 ≤ (categoryCount cs u merchant category : ℚ) / (totalCount cs u merchant : ℚ)) →
      updateMerchantMapping cs maps merchant category u = maps)
    ∧ ((3 ≤ categoryCount cs u merchant category ∧
        (7 : ℚ) / 10 ≤ (categoryCount cs u merchant category : ℚ) / (totalCount cs u merchant : ℚ)) →
      (let cc := categoryCount cs u merchant category
       let conf := min ((19 : ℚ) / 20) ((cc : ℚ) / (totalCount cs u merchant : ℚ))
       let key := fun (mp : Mapping) => decide (mp.userId = u ∧ mp.merchantNormalized = merchant)
       if maps.any key then
         updateMerchantMapping cs maps merchant category u =
           updateFirstMapping key (fun mp => { mp with
             learnedCategory := category, correctionCount := cc, confidence := conf }) maps
       else
         updateMerchantMapping cs maps merchant category u =
           maps ++ [⟨u, merchant, category, cc, conf⟩]))
    ∧ (∀ u2 m2, mappingKeyCount maps u2 m2 ≤ 1 →
        mappingKeyCount (updateMerchantMapping cs maps merchant category u) u2 m2 ≤ 1) := by
  refine ⟨fun h => ?_, fun h => ?_, fun u2 m2 hlen => ?_⟩
  · simp only [updateMerchantMapping, if_neg h]
  · simp only [updateMerchantMapping, if_pos h]
    split
    · rfl
    · rfl
  · simp only [mappingKeyCount, updateMerchantMapping] at hlen ⊢
    split
    · split
      · rw [updateFirstMapping_filter_length]
        · exact hlen
        · intro mp; rfl
      · rename_i hcond hany
        rw [List.filter_append, List.length_append]
        by_cases hmatch : u = u2 ∧ merchant = m2
        · have hzero : (maps.filter fun mp =>
              decide (mp.userId = u2 ∧ mp.merchantNormalized = m2)).length = 0 := by
            rw [List.length_eq_zero, List.filter_eq_nil_iff]
            intro mp hmp hq
            simp only [decide_eq_true_eq] at hq
            apply hany
            rw [List.any_eq_true]
            exact ⟨mp, hmp, by
              simp only [decide_eq_true_eq]
              exact ⟨hmatch.1 ▸ hq.1, hmatch.2 ▸ hq.2⟩⟩
          have hone : (([⟨u, merchant, category, categoryCount cs u merchant category,
              min ((19:ℚ)/20) ((categoryCount cs u merchant category : ℚ) /
                (totalCount cs u merchant : ℚ))⟩] : List Mapping).filter fun mp =>
              decide (mp.userId = u2 ∧ mp.merchantNormalized = m2)).length ≤ 1 := by
            simp only [List.filter]
            split <;> simp
          omega
        · have hone : (([⟨u, merchant, category, categoryCount cs u merchant category,
              min ((19:ℚ)/20) ((categoryCount cs u merchant category : ℚ) /
                (totalCount cs u merchant : ℚ))⟩] : List Mapping).filter fun mp =>
              decide (mp.userId = u2 ∧ mp.merchantNormalized = m2)).length = 0 := by
            simp only [List.filter]
            split
            · rename_i hq
              simp only [decide_eq_true_eq] at hq
              exact absurd ⟨hq.1, hq.2⟩ hmatch
            · rfl
          omega
    · exact hlen

theorem merchant_mapping_promotion_witness :
    updateMerchantMapping bdCs34 [] "x" "Food" 1 = [⟨1, "x", "Food", 3, 3/4⟩] ∧
    updateMerchantMapping bdCs24 [] "x" "Food" 1 = [] ∧
    updateMerchantMapping bdCs35 [] "x" "Food" 1 = [] ∧
    updateMerchantMapping bdCs33 [] "x" "Food" 1 = [⟨1, "x", "Food", 3, 19/20⟩] := by
  have hcc34 : categoryCount bdCs34 1 "x" "Food" = 3 := by decide
  have htc34 : totalCount bdCs34 1 "x" = 4 := by decide
  have hcc24 : categoryCount bdCs24 1 "x" "Food" = 2 := by decide
  have hcc35 : categoryCount bdCs35 1 "x" "Food" = 3 := by decide
  have htc35 : totalCount bdCs35 1 "x" = 5 := by decide
  have hcc33 : categoryCount bdCs33 1 "x" "Food" = 3 := by decide
  have htc33 : totalCount bdCs33 1 "x" = 3 := by decide
  have h34 := (merchant_mapping_promotion bdCs34 [] "x" "Food" 1).2.1
    (by rw [hcc34, htc34]; norm_num)
  have h24 := (merchant_mapping_promotion bdCs24 [] "x" "Food" 1).1
    (by rw [hcc24]; norm_num)
  have h35 := (merchant_mapping_promotion bdCs35 [] "x" "Food" 1).1
    (by rw [hcc35, htc35]; norm_num)
  have h33 := (merchant_mapping_promotion bdCs33 [] "x" "Food" 1).2.1
    (by rw [hcc33, htc33]; norm_num)
  simp only [hcc34, htc34, List.any_nil, if_false, List.nil_append, Bool.false_eq_true,
    if_neg] at h34
  simp only [hcc33, htc33, List.any_nil, Bool.false_eq_true, if_neg] at h33
  refine ⟨?_, h24, h35, ?_⟩
  · rw [h34]
    norm_num [min_def]
  · rw [h33]
    norm_num [min_def]

theorem except_bind_ok {α β ε : Type} (a : α) (f : α → Except ε β) :
    (Except.ok a >>= f) = f a := rfl

theorem except_bind_error {α β ε : Type} (e : ε) (f : α → Except ε β) :
    ((Except.error e : Except ε α) >>= f) = Except.error e := rfl

theorem parseSingleTx_ok_some (ov : OverrideHook) (d : Json) (tx : ParsedTx)
    (h : parseSingleTx ov d = .ok (some tx)) :
    ∃ a amt, d.get? "amount" = some a ∧ parseAmountJson a = some amt ∧ tx.amount = amt := by
  cases ha : d.get? "amount" with
  | none => simp [parseSingleTx, ha] at h
  | some a =>
    cases hamt : parseAmountJson a with
    | none => simp [parseSingleTx, ha, hamt] at h
    | some amt =>
      refine ⟨a, amt, rfl, hamt, ?_⟩
      cases hdesc : d.getD "description" (Json.str "Unknown") <;>
        simp [parseSingleTx, ha, hamt, hdesc] at h
      obtain ⟨rfl⟩ := h
      rfl

theorem parseAmountJson_nonneg (j : Json) (q : ℚ) (h : parseAmountJson j = some q) :
    0 ≤ q := by
  cases j with
  | num x =>
    simp [parseAmountJson] at h
    subst h
    split <;> linarith
  | str s =>
    simp only [parseAmountJson, parseAmountStr, Option.map_eq_some'] at h
    obtain ⟨x, _, rfl⟩ := h
    split <;> linarith
  | _ => simp [parseAmountJson] at h

theorem parseTxList_amount_nonneg (ov : OverrideHook) :
    ∀ (l : List Json) (txs : List ParsedTx), parseTxList ov l = .ok txs →
      ∀ tx ∈ txs, 0 ≤ tx.amount := by
  intro l
  induction l with
  | nil =>
    intro txs h tx htx
    simp [parseTxList] at h
    subst h
    simp at htx
  | cons d rest ih =>
    intro txs h tx htx
    cases ho : parseSingleTx ov d with
    | error e => simp [parseTxList, ho, except_bind_error] at h
    | ok o =>
      cases ht : parseTxList ov rest with
      | error e => simp [parseTxList, ho, ht, except_bind_ok, except_bind_error] at h
      | ok t =>
        cases o with
        | none =>
          simp only [parseTxList, ho, ht, except_bind_ok, Except.ok.injEq] at h
          rw [← h] at htx
          exact ih t ht tx htx
        | some tx0 =>
          simp only [parseTxList, ho, ht, except_bind_ok, Except.ok.injEq] at h
          rw [← h] at htx
          rcases List.mem_cons.mp htx with rfl | htx2
          · obtain ⟨a, amt, _, hamt, hval⟩ := parseSingleTx_ok_some ov d tx ho
            exact hval ▸ parseAmountJson_nonneg a amt hamt
          · exact ih t ht tx htx2

theorem parseMultipleResponse_ok_inv (ov : OverrideHook) (d : Json) (r : MultiResult)
    (hok : parseMultipleResponse ov d = .ok r) :
    ∃ l txs chartO, d.getD "transactions" (Json.arr []) = Json.arr l ∧
      parseTxList ov l = .ok txs ∧
      parseChart (d.getD "chart" Json.null) = .ok chartO ∧
      ((∃ c, chartO = some c ∧ r = ⟨[], c.total, some c⟩) ∨
        (chartO = none ∧ r.transactions = txs ∧ r.chart = none)) := by
  cases d with
  | obj fields =>
    cases htr : Json.getD (Json.obj fields) "transactions" (Json.arr []) with
    | arr l =>
      cases htl : parseTxList ov l with
      | error e => simp [parseMultipleResponse, htr, htl, except_bind_error] at hok
      | ok txs =>
        cases hch : parseChart (Json.getD (Json.obj fields) "chart" Json.null) with
        | error e =>
          simp [parseMultipleResponse, htr, htl, hch, except_bind_ok, except_bind_error] at hok
        | ok chartO =>
          refine ⟨l, txs, chartO, rfl, htl, rfl, ?_⟩
          cases chartO with
          | some c =>
            simp only [parseMultipleResponse, htr, htl, hch, except_bind_ok,
              Except.ok.injEq] at hok
            exact Or.inl ⟨c, rfl, hok.symm⟩
          | none =>
            simp only [parseMultipleResponse, htr, htl, hch, except_bind_ok,
              Except.ok.injEq] at hok
            exact Or.inr ⟨rfl, by rw [← hok], by rw [← hok]⟩
    | null => simp [parseMultipleResponse, htr] at hok
    | bool b => simp [parseMultipleResponse, htr] at hok
    | num q => simp [parseMultipleResponse, htr] at hok
    | str s => simp [parseMultipleResponse, htr] at hok
    | obj f2 => simp [parseMultipleResponse, htr] at hok
  | null => simp [parseMultipleResponse] at hok
  | bool b => simp [parseMultipleResponse] at hok
  | num q => simp [parseMultipleResponse] at hok
  | str s => simp [parseMultipleResponse] at hok
  | arr l => simp [parseMultipleResponse] at hok

/-- C1: for every decoded response accepted by the multi-transaction
extractor, if a chart with at least one valid category entry is recognized,
the returned result has an empty transaction list and its total equals the
chart's total; if no chart is recognized, the parsed transaction list is
returned. -/
theorem chart_priority_discards_transactions (ov : OverrideHook) (d : Json) (r : MultiResult)
    (hok : parseMultipleResponse ov d = .ok r) :
    (∀ c, parseChart (d.getD "chart" Json.null) = .ok (some c) →
      r.transactions = [] ∧ r.totalAmount = c.total ∧ r.chart = some c)
    ∧ (parseChart (d.getD "chart" Json.null) = .ok none →
      ∃ l txs, d.getD "transactions" (Json.arr []) = Json.arr l ∧
        parseTxList ov l = .ok txs ∧ r.transactions = txs ∧ r.chart = none) := by
  obtain ⟨l, txs, chartO, htr, htl, hch, hcase⟩ := parseMultipleResponse_ok_inv ov d r hok
  constructor
  · intro c hc
    have hco : chartO = some c := Except.ok.inj (hch.symm.trans hc)
    rcases hcase with ⟨c2, hc2, rfl⟩ | ⟨hnone, _, _⟩
    · have : c2 = c := by rw [hc2] at hco; exact Option.some.inj hco
      subst this
      exact ⟨rfl, rfl, rfl⟩
    · rw [hnone] at hco; cases hco
  · intro hc
    have hco : chartO = none := Except.ok.inj (hch.symm.trans hc)
    rcases hcase with ⟨c2, hc2, rfl⟩ | ⟨hnone, htxs, hchr⟩
    · rw [hc2] at hco; cases hco
    · exact ⟨l, txs, htr, htl, htxs, hchr⟩

theorem chart_priority_witness :
    parseMultipleResponse trivialHook c1Resp = .ok c1Result ∧
    c1Result.transactions = [] ∧ c1Result.totalAmount = c1Chart.total := by
  have hok : parseMultipleResponse trivialHook c1Resp = .ok c1Result := rfl
  have h := (chart_priority_discards_transactions trivialHook c1Resp c1Result hok).1
    c1Chart rfl
  exact ⟨hok, h.1, h.2.1⟩

/-- C8 (amended): the amount parser never returns a negative value (signs
are stripped and discarded), with `"1 500,50" → 1500.50`,
`"−1 500,50" → 1500.50` and `"$99.99" → 99.99`; every transaction the
spreadsheet row extraction accepts has a strictly positive amount; every
transaction the image pipeline returns has a *non-negative* amount (zero is
possible there: see the counterexample). -/
theorem amount_sign_policy :
    (∀ j q, parseAmountJson j = some q → 0 ≤ q)
    ∧ parseAmountStr "1 500,50" = some ((3001 : ℚ)/2)
    ∧ parseAmountStr "−1 500,50" = some ((3001 : ℚ)/2)
    ∧ parseAmountStr "$99.99" = some ((9999 : ℚ)/100)
    ∧ (∀ s q t, excelRowAmount s = some (q, t) → 0 < q)
    ∧ (∀ ov d r, parseMultipleResponse ov d = .ok r → ∀ tx ∈ r.transactions, 0 ≤ tx.amount) := by
  refine ⟨parseAmountJson_nonneg, ?_, ?_, ?_, ?_, ?_⟩
  · have h : parseAmountStr "1 500,50" = some (mkRat 3001 2) := by decide
    rw [h, Rat.mkRat_eq_divInt, Rat.divInt_eq_div]; norm_num
  · have h : parseAmountStr "−1 500,50" = some (mkRat 3001 2) := by decide
    rw [h, Rat.mkRat_eq_divInt, Rat.divInt_eq_div]; norm_num
  · have h : parseAmountStr "$99.99" = some (mkRat 9999 100) := by decide
    rw [h, Rat.mkRat_eq_divInt, Rat.divInt_eq_div]; norm_num
  · intro s q t h
    cases hpr : parseRussianNumber s with
    | none => simp [excelRowAmount, hpr] at h
    | some a =>
      by_cases ha0 : a = 0
      · simp [excelRowAmount, hpr, ha0] at h
      · simp only [excelRowAmount, hpr, if_neg ha0, Option.some.injEq, Prod.mk.injEq] at h
        obtain ⟨hq, -⟩ := h
        subst hq
        split
        · rename_i hneg; linarith
        · rename_i hpos
          exact lt_of_le_of_ne (not_lt.mp hpos) (Ne.symm ha0)
  · intro ov d r hok tx htx
    obtain ⟨l, txs, chartO, _, htl, _, hcase⟩ := parseMultipleResponse_ok_inv ov d r hok
    rcases hcase with ⟨c, _, rfl⟩ | ⟨_, htxs, _⟩
    · simp at htx
    · rw [htxs] at htx
      exact parseTxList_amount_nonneg ov l txs htl tx htx

/-- C8 counterexample: the image pipeline accepts a reported amount of `0`
and returns a transaction whose amount is not strictly positive. -/
theorem image_pipeline_zero_amount_counterexample :
    parseMultipleResponse trivialHook zeroAmountResp = .ok ⟨[zeroAmountTx], 0, none⟩ ∧
    zeroAmountTx.amount = 0 ∧ ¬ (0 : ℚ) > 0 := by
  exact ⟨rfl, rfl, by norm_num⟩

theorem amount_sign_policy_witness :
    parseAmountJson (Json.num (-5)) = some 5 ∧ (0 : ℚ) ≤ 5 ∧
    excelRowAmount "-1 500,00" = some (1500, "expense") ∧ (0 : ℚ) < 1500 := by
  refine ⟨by decide, amount_sign_policy.1 (Json.num (-5)) 5 (by decide), by decide,
    amount_sign_policy.2.2.2.2.1 "-1 500,00" 1500 "expense" (by decide)⟩

/-- C7: a raw transaction object is skipped exactly when its amount is
missing or unparseable; in a multi-transaction batch such an object is
silently dropped and the remaining transactions are still returned, while in
a single-transaction extraction it makes the whole call fail. -/
theorem bad_amount_policy (ov : OverrideHook) (d : Json) (rest : List Json) :
    (parseSingleTx ov d = .ok none ↔ (d.get? "amount").bind parseAmountJson = none)
    ∧ ((d.get? "amount").bind parseAmountJson = none →
      (∀ txs, parseTxList ov rest = .ok txs →
        parseMultipleResponse ov (Json.obj [("transactions", Json.arr (d :: rest))])
          = .ok ⟨txs, 0, none⟩)
      ∧ parseResponse ov (Json.obj [("transactions", Json.arr (d :: rest))]) = .error ()) := by
  have hiff : parseSingleTx ov d = .ok none ↔ (d.get? "amount").bind parseAmountJson = none := by
    cases ha : d.get? "amount" with
    | none => simp [parseSingleTx, ha]
    | some a =>
      cases hamt : parseAmountJson a with
      | none => simp [parseSingleTx, ha, hamt]
      | some amt =>
        simp only [ha, hamt, Option.some_bind]
        constructor
        · intro h
          cases hdesc : d.getD "description" (Json.str "Unknown") <;>
            simp [parseSingleTx, ha, hamt, hdesc] at h
        · intro h; cases h
  refine ⟨hiff, fun h => ⟨fun txs htxs => ?_, ?_⟩⟩
  · have hnone : parseSingleTx ov d = .ok none := hiff.mpr h
    simp [parseMultipleResponse, parseTxList, hnone, htxs, except_bind_ok,
      Json.getD, Json.get?, List.find?, parseChart, Json.truthy, pyDecimalOfStr?]
  · have hnone : parseSingleTx ov d = .ok none := hiff.mpr h
    simp [parseResponse, hnone, except_bind_ok, Json.get?, List.find?]

theorem bad_amount_policy_witness :
    parseMultipleResponse trivialHook (Json.obj [("transactions", Json.arr [noAmountObj, validTxObj])])
      = .ok ⟨[validParsedTx], 0, none⟩ ∧
    parseResponse trivialHook (Json.obj [("transactions", Json.arr [noAmountObj, validTxObj])])
      = .error () := by
  have h := (bad_amount_policy trivialHook noAmountObj [validTxObj]).2 (by decide)
  exact ⟨h.1 [validParsedTx] rfl, h.2⟩

theorem detectStep_cases (st : ColState) (idx : ℕ) (h : List Char) :
    detectStep st idx h = st ∨
    (st.date = none ∧ detectStep st idx h = { st with date := some idx }) ∨
    (st.amount = none ∧ detectStep st idx h = { st with amount := some idx }) ∨
    (st.desc = none ∧ detectStep st idx h = { st with desc := some idx }) := by
  unfold detectStep
  split_ifs with h1 h2 h3 h4 h5 <;>
    first
      | exact Or.inl rfl
      | exact Or.inr (Or.inl ⟨by tauto, rfl⟩)
      | exact Or.inr (Or.inr (Or.inl ⟨by tauto, rfl⟩))
      | exact Or.inr (Or.inr (Or.inr ⟨by tauto, rfl⟩))

theorem colInv_mono (st : ColState) (n : ℕ) (hI : colInv st n) : colInv st (n + 1) := by
  obtain ⟨h1, h2, h3, h4, h5, h6⟩ := hI
  exact ⟨fun i hi => Nat.lt_succ_of_lt (h1 i hi),
    fun i hi => Nat.lt_succ_of_lt (h2 i hi),
    fun i hi => Nat.lt_succ_of_lt (h3 i hi), h4, h5, h6⟩

theorem colInv_step (st : ColState) (idx : ℕ) (h : List Char) (hI : colInv st idx) :
    colInv (detectStep st idx h) (idx + 1) := by
  obtain ⟨h1, h2, h3, h4, h5, h6⟩ := hI
  rcases detectStep_cases st idx h with heq | ⟨hd, heq⟩ | ⟨ha, heq⟩ | ⟨hs, heq⟩ <;> rw [heq]
  · exact colInv_mono st idx ⟨h1, h2, h3, h4, h5, h6⟩
  · refine ⟨?_, ?_, ?_, ?_, ?_, h6⟩
    · intro i hi
      simp at hi
      omega
    · intro i hi
      exact Nat.lt_succ_of_lt (h2 i hi)
    · intro i hi
      exact Nat.lt_succ_of_lt (h3 i hi)
    · intro i j hi hj
      simp at hi
      have := h2 j hj
      omega
    · intro i j hi hj
      simp at hi
      have := h3 j hj
      omega
  · refine ⟨?_, ?_, ?_, ?_, h5, ?_⟩
    · intro i hi
      exact Nat.lt_succ_of_lt (h1 i hi)
    · intro i hi
      simp at hi
      omega
    · intro i hi
      exact Nat.lt_succ_of_lt (h3 i hi)
    · intro i j hi hj
      simp at hj
      have := h1 i hi
      omega
    · intro i j hi hj
      simp at hi
      have := h3 j hj
      omega
  · refine ⟨?_, ?_, ?_, h4, ?_, ?_⟩
    · intro i hi
      exact Nat.lt_succ_of_lt (h1 i hi)
    · intro i hi
      exact Nat.lt_succ_of_lt (h2 i hi)
    · intro i hi
      simp at hi
      omega
    · intro i j hi hj
      simp at hj
      have := h1 i hi
      omega
    · intro i j hi hj
      simp at hj
      have := h2 i hi
      omega

theorem colInv_loop : ∀ (hs : List (List Char)) (n : ℕ) (st : ColState),
    colInv st n → colInv (detectLoop n hs st) (n + hs.length) := by
  intro hs
  induction hs with
  | nil => intro n st hI; exact hI
  | cons h rest ih =>
    intro n st hI
    have hrec := ih (n + 1) (detectStep st n h) (colInv_step st n h hI)
    have heq : n + (h :: rest).length = (n + 1) + rest.length := by
      simp [List.length_cons]
      omega
    rw [heq]
    exact hrec

theorem descFallback_not_used (used : List ℕ) :
    ∀ (hs : List (List Char)) (n i : ℕ), descFallback used n hs = some i →
      used.contains i = false := by
  intro hs
  induction hs with
  | nil => intro n i h; simp [descFallback] at h
  | cons h rest ih =>
    intro n i hfb
    unfold descFallback at hfb
    split_ifs at hfb with hc
    · obtain rfl := Option.some.inj hfb
      simpa using hc.1
    · exact ih (n + 1) i hfb

/-- C5 (amended): whenever the heuristic phase returns a `ColumnMapping`,
its three column indices are pairwise distinct; the AI-assisted fallback
accepts an answer only when the three keys are all present and non-null (it
does not check distinctness: see the counterexample). -/
theorem column_detection_resolution (headers : List String) (j : Json) :
    (∀ m, detectColumns headers = some m →
      m.date ≠ m.amount ∧ m.date ≠ m.description ∧ m.amount ≠ m.description)
    ∧ (∀ m, detectColumnsWithAI j = some m →
      ∃ dj aj dsj, j.get? "date" = some dj ∧ j.get? "amount" = some aj ∧
        j.get? "description" = some dsj ∧
        ¬ dj.isNull ∧ ¬ aj.isNull ∧ ¬ dsj.isNull) := by
  constructor
  · intro m hm
    unfold detectColumns at hm
    simp only [] at hm
    have hInit : colInv ⟨none, none, none⟩ 0 := by
      refine ⟨fun i hi => ?_, fun i hi => ?_, fun i hi => ?_, fun i j hi hj => ?_,
        fun i j hi hj => ?_, fun i j hi hj => ?_⟩ <;> cases hi
    have hInv := colInv_loop (headers.map normalizeHeader) 0 ⟨none, none, none⟩ hInit
    set st := detectLoop 0 (headers.map normalizeHeader) ⟨none, none, none⟩ with hst
    obtain ⟨hb1, hb2, hb3, hne12, hne13, hne23⟩ := hInv
    rcases hdate : st.date with _ | d
    · simp [hdate] at hm
    · rcases hamount : st.amount with _ | a
      · simp [hdate, hamount] at hm
      · rcases hdesc : st.desc with _ | ds
        · rcases hfb : descFallback [d, a] 0 (headers.map normalizeHeader) with _ | ds
          · simp [hdate, hamount, hdesc, hfb] at hm
          · simp only [hdate, hamount, hdesc, hfb, Option.some.injEq] at hm
            obtain rfl := hm.symm
            have hnu := descFallback_not_used [d, a] (headers.map normalizeHeader) 0 ds hfb
            simp at hnu
            have h12 := hne12 d a hdate hamount
            refine ⟨?_, ?_, ?_⟩ <;> simp <;> omega
        · simp only [hdate, hamount, hdesc, Option.some.injEq] at hm
          obtain rfl := hm.symm
          have h12 := hne12 d a hdate hamount
          have h13 := hne13 d ds hdate hdesc
          have h23 := hne23 a ds hamount hdesc
          refine ⟨?_, ?_, ?_⟩ <;> simp <;> omega
  · intro m hm
    cases j with
    | obj fields =>
      cases hdj : (Json.obj fields).get? "date" with
      | none => simp [detectColumnsWithAI, hdj] at hm
      | some dj =>
        cases haj : (Json.obj fields).get? "amount" with
        | none => simp [detectColumnsWithAI, hdj, haj] at hm
        | some aj =>
          cases hsj : (Json.obj fields).get? "description" with
          | none => simp [detectColumnsWithAI, hdj, haj, hsj] at hm
          | some dsj =>
            refine ⟨dj, aj, dsj, rfl, rfl, rfl, ?_⟩
            by_cases hnn : ¬ dj.isNull ∧ ¬ aj.isNull ∧ ¬ dsj.isNull
            · exact hnn
            · simp only [detectColumnsWithAI, hdj, haj, hsj, if_neg hnn] at hm
              cases hm
    | null => simp [detectColumnsWithAI] at hm
    | bool b => simp [detectColumnsWithAI] at hm
    | num q => simp [detectColumnsWithAI] at hm
    | str s => simp [detectColumnsWithAI] at hm
    | arr l => simp [detectColumnsWithAI] at hm

/-- C5 counterexample: the AI fallback accepts an answer in which all three
indices coincide, so detection can yield an overlapping mapping. -/
theorem column_detection_overlap_counterexample :
    detectColumnsWithAI aiOverlapAnswer = some ⟨0, 0, 0⟩ ∧
    (⟨0, 0, 0⟩ : ColumnMapping).date = (⟨0, 0, 0⟩ : ColumnMapping).amount := by
  constructor
  · decide
  · rfl

theorem column_detection_witness :
    detectColumns ["Дата", "Сумма", "Описание"] = some ⟨0, 1, 2⟩ ∧
    detectColumns ["Сумма", "Дата", "Описание"] = some ⟨1, 0, 2⟩ ∧
    detectColumns ["Получатель", "Дата", "Сумма", "Назначение"] = some ⟨1, 2, 0⟩ ∧
    ((0 : ℤ) ≠ 1 ∧ (0 : ℤ) ≠ 2 ∧ (1 : ℤ) ≠ 2) := by
  have hd : detectColumns ["Дата", "Сумма", "Описание"] = some ⟨0, 1, 2⟩ := by decide
  exact ⟨hd, by decide, by decide,
    (column_detection_resolution ["Дата", "Сумма", "Описание"] Json.null).1
      ⟨0, 1, 2⟩ hd⟩

theorem pyStrip_length_le (l : List Char) : (pyStrip l).length ≤ l.length := by
  unfold pyStrip
  simp only [List.length_reverse]
  calc ((l.dropWhile isPySpace).reverse.dropWhile isPySpace).length
      ≤ (l.dropWhile isPySpace).reverse.length := (List.dropWhile_sublist _).length_le
    _ = (l.dropWhile isPySpace).length := List.length_reverse _
    _ ≤ l.length := (List.dropWhile_sublist _).length_le

theorem removeAllAux_length_le (pat : List Char) :
    ∀ (fuel : ℕ) (s : List Char), (removeAllAux pat fuel s).length ≤ s.length := by
  intro fuel
  induction fuel with
  | zero => intro s; simp [removeAllAux]
  | succ n ih =>
    intro s
    cases s with
    | nil => simp [removeAllAux]
    | cons c rest =>
      simp only [removeAllAux]
      split
      · calc (removeAllAux pat n ((c :: rest).drop pat.length)).length
            ≤ ((c :: rest).drop pat.length).length := ih _
          _ ≤ (c :: rest).length := by
              simp [List.length_drop]
      · simpa using Nat.succ_le_succ (ih rest)

theorem removeAll_length_le (pat s : List Char) : (removeAll pat s).length ≤ s.length :=
  removeAllAux_length_le pat s.length s

theorem noiseFold_length_le (ws : List String) (t : List Char) :
    (ws.foldl (fun acc w => removeAll w.data acc) t).length ≤ t.length := by
  induction ws generalizing t with
  | nil => simp
  | cons w rest ih =>
    simp only [List.foldl_cons]
    exact le_trans (ih (removeAll w.data t)) (removeAll_length_le w.data t)

theorem scanSub_length_le (m : Option Char → List Char → Option ℕ) :
    ∀ (fuel : ℕ) (prev : Option Char) (s : List Char),
      (scanSub m fuel prev s).length ≤ s.length := by
  intro fuel
  induction fuel with
  | zero => intro prev s; simp [scanSub]
  | succ n ih =>
    intro prev s
    cases s with
    | nil => simp [scanSub]
    | cons c rest =>
      simp only [scanSub]
      split
      · calc (scanSub m n _ ((c :: rest).drop _)).length
            ≤ ((c :: rest).drop _).length := ih _ _
          _ ≤ (c :: rest).length := by simp [List.length_drop]
      · simpa using Nat.succ_le_succ (ih (some c) rest)

theorem applyScan_length_le (m : Option Char → List Char → Option ℕ) (l : List Char) :
    (applyScan m l).length ≤ l.length :=
  scanSub_length_le m l.length none l

theorem trailingRefSub_length_le (s : List Char) : (trailingRefSub s).length ≤ s.length := by
  induction s with
  | nil => simp [trailingRefSub]
  | cons c rest ih =>
    simp only [trailingRefSub]
    split
    · simp
    · simpa using Nat.succ_le_succ ih

theorem trailingNoSub_length_le (s : List Char) :
    ∀ prev, (trailingNoSub prev s).length ≤ s.length := by
  induction s with
  | nil => intro prev; simp [trailingNoSub]
  | cons c rest ih =>
    intro prev
    simp only [trailingNoSub]
    split
    · simp
    · simpa using Nat.succ_le_succ (ih (some c))

theorem wordPunctSub_length_eq (s : List Char) :
    ∀ prev, (wordPunctSub prev s).length = s.length := by
  induction s with
  | nil => intro prev; simp [wordPunctSub]
  | cons c rest ih =>
    intro prev
    simp only [wordPunctSub, List.length_cons]
    rw [ih (some c)]

theorem squeezeSpaces_length_le (s : List Char) : (squeezeSpaces s).length ≤ s.length := by
  induction s with
  | nil => simp [squeezeSpaces]
  | cons a t ih =>
    cases t with
    | nil => simp [squeezeSpaces]
    | cons b rest =>
      simp only [squeezeSpaces]
      split
      · exact le_trans ih (by simp)
      · simpa using Nat.succ_le_succ ih

/-- C2 (amended): merchant normalization is a pure total function whose
output never exceeds 500 characters nor the input's length; it is *not*
idempotent in general (see the counterexample: a second pass can normalize
further). -/
theorem normalize_merchant_name_bounds (s : String) :
    (normalize_merchant_name s).length ≤ 500 ∧
    (normalize_merchant_name s).length ≤ s.length := by
  have hmk : ∀ l : List Char, (String.mk l).length = l.length := fun l => rfl
  unfold normalize_merchant_name
  simp only []
  rw [hmk]
  constructor
  · exact le_trans (le_of_eq (List.length_take _ _)) (min_le_left _ _)
  · refine le_trans (le_of_eq (List.length_take _ _)) (le_trans (min_le_right _ _) ?_)
    refine le_trans (pyStrip_length_le _) ?_
    refine le_trans (squeezeSpaces_length_le _) ?_
    rw [List.length_map]
    refine le_trans ((List.filter_sublist _).length_le) ?_
    rw [wordPunctSub_length_eq]
    refine le_trans (trailingNoSub_length_le _ _) ?_
    refine le_trans (trailingRefSub_length_le _) ?_
    refine le_trans (applyScan_length_le _ _) ?_
    refine le_trans (applyScan_length_le _ _) ?_
    refine le_trans (applyScan_length_le _ _) ?_
    refine le_trans (applyScan_length_le _ _) ?_
    refine le_trans (noiseFold_length_le _ _) ?_
    refine le_trans (pyStrip_length_le _) ?_
    rw [List.length_map]
    exact le_of_eq rfl

theorem normalize_merchant_name_bounds_witness :
    (normalize_merchant_name "оплата Пятёрочка покупка").length ≤ 500 ∧
    normalize_merchant_name "оплата Пятёрочка покупка" = "пятёрочка" := by
  exact ⟨(normalize_merchant_name_bounds "оплата Пятёрочка покупка").1, by decide⟩

/-- C2 counterexample: `normalize("a*.b") = "a.b"` — the asterisk is removed
*after* the inter-word-punctuation rule has run, so the second application
still finds `a.b` and rewrites it to `a b`; normalization is not
idempotent. -/
theorem normalize_not_idempotent_counterexample :
    normalize_merchant_name "a*.b" = "a.b" ∧
    normalize_merchant_name (normalize_merchant_name "a*.b") = "a b" ∧
    normalize_merchant_name (normalize_merchant_name "a*.b") ≠ normalize_merchant_name "a*.b" := by
  refine ⟨by decide, by decide, by decide⟩
